import Mathlib

/-!
Verification of the gover toolchain manager (main.go) against its
natural-language specification.  The Go functions are embedded shallowly:
pure code (dedupEnv, homedir, makeScript, path building) becomes Lean
functions; effectful code (fetch, fetchify, installVer, main's startup)
becomes functions over an explicit world of primitive-effect outcomes that
also return the trace of observable events in program order.
-/

namespace Gover

/-! ### Environment de-duplication (main.go, dedupEnv, lines 274-295)

Entries are the usual KEY=VALUE strings.  Go's `strings.Index(kv, "=")`
returns the byte index of the first '=' or -1; the guard `eq < 1` holds
exactly when there is no '=' or the first '=' is the very first character,
which coincides with the same test on character indices, so the embedding
works over `String.toList`.  `strings.ToLower` is modelled by per-character
ASCII lowering (all keys the program composes are ASCII). -/

def lowerStr (s : String) : String := String.mk (s.toList.map Char.toLower)

/-- Index (in characters) of the first '=' of `kv`; `kv.toList.length` when absent. -/
def firstEq (kv : String) : Nat := kv.toList.indexOf '='

/-- Go's `strings.Index(kv, "=")`: the index of the first '=' or -1. -/
def eqIdx (kv : String) : Int :=
  if firstEq kv < kv.toList.length then (firstEq kv : Int) else -1

/-- Go's `kv[:eq]`: the text before the first '='. -/
def rawKey (kv : String) : String := String.mk (kv.toList.take (firstEq kv))

/-- The key used for de-duplication: lowered when `caseInsensitive`. -/
def normKey (c : Bool) (kv : String) : String :=
  if c then lowerStr (rawKey kv) else rawKey kv

/-- The dedup key of an entry: `none` for pass-through entries (`eq < 1`),
`some` of the (possibly lowered) key otherwise.  This packages the guard and
the key computation of the loop body of dedupEnv. -/
def envKey (c : Bool) (kv : String) : Option String :=
  if eqIdx kv < 1 then none else some (normKey c kv)

/-- The loop of dedupEnv: `out` is the output being built, `saw` is the map
from seen keys to their index in `out` (Go's `map[string]int`). -/
def dedupLoop (c : Bool) : List String → List String → (String → Option Nat) → List String
  | [], out, _ => out
  | kv :: rest, out, saw =>
    match envKey c kv with
    | none => dedupLoop c rest (out ++ [kv]) saw
    | some k =>
      match saw k with
      | some i => dedupLoop c rest (out.set i kv) saw
      | none => dedupLoop c rest (out ++ [kv]) (fun x => if x = k then some out.length else saw x)

/-- dedupEnv from main.go: removes duplicate keys in favour of later values,
overwriting the earlier occurrence in place. -/
def dedupEnv (c : Bool) (env : List String) : List String :=
  dedupLoop c env [] (fun _ => none)

/-- The constant `caseInsensitiveEnv = runtime.GOOS == "windows"` (main.go
line 221), as a function of the platform string. -/
def caseInsensitiveEnv (goos : String) : Bool := goos == "windows"

/-- Invariant tying the output being built to the seen-key map: `saw` sends a
key to a position exactly when that position holds a well-formed entry with
that key. -/
def SlotInv (c : Bool) (out : List String) (saw : String → Option Nat) : Prop :=
  (∀ k i, saw k = some i →
    ∃ h : i < out.length, envKey c (out.get ⟨i, h⟩) = some k) ∧
  (∀ i k (h : i < out.length), envKey c (out.get ⟨i, h⟩) = some k → saw k = some i)

theorem slotInv_empty (c : Bool) : SlotInv c [] (fun _ => none) := by
  constructor
  · intro k i h; simp at h
  · intro i k h; simp at h

theorem slotInv_pass {c : Bool} {out : List String} {saw : String → Option Nat} {kv : String}
    (h : SlotInv c out saw) (hkv : envKey c kv = none) :
    SlotInv c (out ++ [kv]) saw := by
  obtain ⟨hA, hB⟩ := h
  constructor
  · intro k i hki
    obtain ⟨hlt, hkey⟩ := hA k i hki
    have hlt2 : i < (out ++ [kv]).length := by simp; omega
    refine ⟨hlt2, ?_⟩
    simp only [List.get_eq_getElem] at hkey ⊢
    rw [List.getElem_append_left hlt]
    exact hkey
  · intro i k hi hkey
    simp only [List.get_eq_getElem] at hkey
    by_cases hcase : i < out.length
    · rw [List.getElem_append_left hcase] at hkey
      exact hB i k hcase (by simpa using hkey)
    · have hieq : i = out.length := by simp at hi; omega
      rw [List.getElem_concat_length out kv i hieq] at hkey
      rw [hkv] at hkey; cases hkey

theorem slotInv_new {c : Bool} {out : List String} {saw : String → Option Nat} {kv k : String}
    (h : SlotInv c out saw) (hkv : envKey c kv = some k) (hk : saw k = none) :
    SlotInv c (out ++ [kv]) (fun x => if x = k then some out.length else saw x) := by
  obtain ⟨hA, hB⟩ := h
  constructor
  · intro k2 i hki
    by_cases hx : k2 = k
    · subst hx
      simp only [if_pos rfl] at hki
      have hieq : i = out.length := by
        cases hki; rfl
      subst hieq
      have hlt2 : out.length < (out ++ [kv]).length := by simp
      refine ⟨hlt2, ?_⟩
      simp only [List.get_eq_getElem]
      rw [List.getElem_concat_length out kv out.length rfl]
      exact hkv
    · simp only [if_neg hx] at hki
      obtain ⟨hlt, hkey⟩ := hA k2 i hki
      have hlt2 : i < (out ++ [kv]).length := by simp; omega
      refine ⟨hlt2, ?_⟩
      simp only [List.get_eq_getElem] at hkey ⊢
      rw [List.getElem_append_left hlt]
      exact hkey
  · intro i k2 hi hkey
    simp only [List.get_eq_getElem] at hkey
    by_cases hcase : i < out.length
    · rw [List.getElem_append_left hcase] at hkey
      have hsaw := hB i k2 hcase (by simpa using hkey)
      have hx : k2 ≠ k := by
        intro he; subst he; rw [hk] at hsaw; cases hsaw
      simp only [if_neg hx]
      exact hsaw
    · have hieq : i = out.length := by simp at hi; omega
      rw [List.getElem_concat_length out kv i hieq] at hkey
      rw [hkv] at hkey
      have hx : k2 = k := by cases hkey; rfl
      subst hx
      simp [hieq]

theorem slotInv_dup {c : Bool} {out : List String} {saw : String → Option Nat}
    {kv k : String} {i : Nat}
    (h : SlotInv c out saw) (hkv : envKey c kv = some k) (hk : saw k = some i) :
    SlotInv c (out.set i kv) saw := by
  obtain ⟨hA, hB⟩ := h
  obtain ⟨hilt, hikey⟩ := hA k i hk
  constructor
  · intro k2 i2 hki
    obtain ⟨hlt, hkey⟩ := hA k2 i2 hki
    have hlt2 : i2 < (out.set i kv).length := by simp; omega
    refine ⟨hlt2, ?_⟩
    simp only [List.get_eq_getElem] at hkey hikey ⊢
    by_cases hx : i2 = i
    · subst hx
      have hkk : k2 = k := by
        have := hkey.symm.trans hikey
        cases this; rfl
      rw [List.getElem_set_self hlt2]
      rw [hkv, hkk]
    · rw [List.getElem_set_ne (fun he => hx he.symm)]
      exact hkey
  · intro i2 k2 hi2 hkey
    simp only [List.get_eq_getElem] at hkey hikey
    by_cases hx : i2 = i
    · subst hx
      rw [List.getElem_set_self hi2] at hkey
      rw [hkv] at hkey
      have hkk : k2 = k := by cases hkey; rfl
      subst hkk
      exact hk
    · rw [List.getElem_set_ne (fun he => hx he.symm)] at hkey
      have hlt : i2 < out.length := by simp at hi2; omega
      exact hB i2 k2 hlt (by simpa using hkey)

/-- The loop preserves the slot invariant all the way to the final output. -/
theorem dedupLoop_inv {c : Bool} :
    ∀ (rest out : List String) (saw : String → Option Nat), SlotInv c out saw →
    ∃ saw2, SlotInv c (dedupLoop c rest out saw) saw2 := by
  intro rest
  induction rest with
  | nil => intro out saw h; exact ⟨saw, h⟩
  | cons kv rest ih =>
    intro out saw h
    cases henv : envKey c kv with
    | none =>
      simp only [dedupLoop, henv]
      exact ih _ _ (slotInv_pass h henv)
    | some k =>
      cases hsk : saw k with
      | none =>
        simp only [dedupLoop, henv, hsk]
        exact ih _ _ (slotInv_new h henv hsk)
      | some i =>
        simp only [dedupLoop, henv, hsk]
        exact ih _ _ (slotInv_dup h henv hsk)

/-- Setting a position does not change a filterMap when the function takes the
same value on the old and new entries. -/
theorem filterMap_set_congr {α β : Type} {f : α → Option β} :
    ∀ (l : List α) (i : Nat) (a : α),
    (∀ h : i < l.length, f (l.get ⟨i, h⟩) = f a) →
    (l.set i a).filterMap f = l.filterMap f := by
  intro l
  induction l with
  | nil => intro i a _; simp
  | cons x xs ih =>
    intro i a hf
    cases i with
    | zero =>
      have hx : f x = f a := hf (by simp)
      simp only [List.set, List.filterMap_cons, hx]
    | succ n =>
      have htl := ih n a (fun h => hf (Nat.succ_lt_succ h))
      simp only [List.set, List.filterMap_cons, htl]

/-- Setting a position does not change a filter when the predicate rejects
both the old and the new entry. -/
theorem filter_set_congr {α : Type} {p : α → Bool} :
    ∀ (l : List α) (i : Nat) (a : α),
    (∀ h : i < l.length, p (l.get ⟨i, h⟩) = false) → p a = false →
    (l.set i a).filter p = l.filter p := by
  intro l
  induction l with
  | nil => intro i a _ _; simp
  | cons x xs ih =>
    intro i a hf ha
    cases i with
    | zero =>
      have hx : p x = false := hf (by simp)
      simp only [List.set, List.filter_cons, hx, ha]
      simp
    | succ n =>
      have htl := ih n a (fun h => hf (Nat.succ_lt_succ h)) ha
      simp only [List.set, List.filter_cons, htl]

/-- The dedup keys of the entries of a list, in order. -/
def keysOf (c : Bool) (l : List String) : List String := l.filterMap (envKey c)

/-- First occurrences of keys not yet seen, in order of first appearance. -/
def firstNew (seen : String → Bool) : List String → List String
  | [] => []
  | k :: ks => if seen k then firstNew seen ks else k :: firstNew (fun x => x == k || seen x) ks

/-- Key order characterization of the loop: the keys of the final output are
the keys already placed followed by the keys of the remaining input in order
of first occurrence, skipping keys already seen. -/
theorem dedupLoop_keys {c : Bool} :
    ∀ (rest out : List String) (saw : String → Option Nat), SlotInv c out saw →
    keysOf c (dedupLoop c rest out saw) =
      keysOf c out ++ firstNew (fun k => (saw k).isSome) (keysOf c rest) := by
  intro rest
  induction rest with
  | nil => intro out saw _; simp [dedupLoop, keysOf, firstNew]
  | cons kv rest ih =>
    intro out saw h
    cases henv : envKey c kv with
    | none =>
      simp only [dedupLoop, henv]
      rw [ih _ _ (slotInv_pass h henv)]
      simp [keysOf, List.filterMap_append, List.filterMap_cons, henv]
    | some k =>
      cases hsk : saw k with
      | some i =>
        simp only [dedupLoop, henv, hsk]
        rw [ih _ _ (slotInv_dup h henv hsk)]
        have hset : keysOf c (out.set i kv) = keysOf c out := by
          apply filterMap_set_congr
          intro hlt
          obtain ⟨hlt2, hkey⟩ := h.1 k i hsk
          rw [henv]
          exact hkey
        rw [hset]
        simp [keysOf, List.filterMap_cons, henv, firstNew, hsk]
      | none =>
        simp only [dedupLoop, henv, hsk]
        rw [ih _ _ (slotInv_new h henv hsk)]
        have hseen : (fun k2 => ((fun x => if x = k then some out.length else saw x) k2).isSome)
            = (fun x => x == k || (fun k2 => (saw k2).isSome) x) := by
          funext x
          by_cases hx : x = k
          · simp [hx]
          · simp [hx]
        rw [hseen]
        simp [keysOf, List.filterMap_append, List.filterMap_cons, henv, firstNew, hsk]

/-- The entries of `l` whose dedup key is `k`. -/
def keyedFilter (c : Bool) (k : String) (l : List String) : List String :=
  l.filter (fun kv => envKey c kv == some k)

/-- Stability: once a slot holds `w` for a key no longer occurring in the
remaining input, `w` survives to the final output. -/
theorem dedupLoop_stable {c : Bool} {k w : String} :
    ∀ (rest out : List String) (saw : String → Option Nat) (i : Nat),
    SlotInv c out saw → saw k = some i → out[i]? = some w →
    (∀ kv ∈ rest, envKey c kv ≠ some k) → w ∈ dedupLoop c rest out saw := by
  intro rest
  induction rest with
  | nil =>
    intro out saw i _ _ hw _
    simp only [dedupLoop]
    exact List.getElem?_mem hw
  | cons kv rest ih =>
    intro out saw i h hk hw hrest
    have hkvk : envKey c kv ≠ some k := hrest kv (by simp)
    have hrest2 : ∀ kv2 ∈ rest, envKey c kv2 ≠ some k :=
      fun kv2 hm => hrest kv2 (by simp [hm])
    obtain ⟨hilt, hikey⟩ := h.1 k i hk
    cases henv : envKey c kv with
    | none =>
      simp only [dedupLoop, henv]
      apply ih _ _ i (slotInv_pass h henv) hk ?_ hrest2
      rw [List.getElem?_append_left hilt]
      exact hw
    | some k2 =>
      have hk2 : k2 ≠ k := fun he => hkvk (by rw [henv, he])
      cases hsk : saw k2 with
      | some i2 =>
        simp only [dedupLoop, henv, hsk]
        apply ih _ _ i (slotInv_dup h henv hsk) hk ?_ hrest2
        have hne : i2 ≠ i := by
          intro he
          subst he
          obtain ⟨hlt2, hkey2⟩ := h.1 k2 i2 hsk
          rw [hikey] at hkey2
          exact hk2 (by cases hkey2; rfl)
        rw [List.getElem?_set_ne hne]
        exact hw
      | none =>
        simp only [dedupLoop, henv, hsk]
        apply ih _ _ i (slotInv_new h henv hsk) ?_ ?_ hrest2
        · have hkk2 : ¬ k = k2 := fun he => hk2 he.symm
          simp only [if_neg hkk2]
          exact hk
        · rw [List.getElem?_append_left hilt]
          exact hw

/-- Last write wins: the last entry of the remaining input carrying key `k`
is present in the final output. -/
theorem dedupLoop_last {c : Bool} {k w : String} :
    ∀ (rest out : List String) (saw : String → Option Nat),
    SlotInv c out saw → (keyedFilter c k rest).getLast? = some w →
    w ∈ dedupLoop c rest out saw := by
  intro rest
  induction rest with
  | nil => intro out saw _ hlast; simp [keyedFilter] at hlast
  | cons kv rest ih =>
    intro out saw h hlast
    by_cases hkvk : envKey c kv = some k
    case neg =>
      have hfil : keyedFilter c k (kv :: rest) = keyedFilter c k rest := by
        simp [keyedFilter, List.filter_cons, hkvk]
      rw [hfil] at hlast
      cases henv : envKey c kv with
      | none =>
        simp only [dedupLoop, henv]
        exact ih _ _ (slotInv_pass h henv) hlast
      | some k2 =>
        cases hsk : saw k2 with
        | some i2 =>
          simp only [dedupLoop, henv, hsk]
          exact ih _ _ (slotInv_dup h henv hsk) hlast
        | none =>
          simp only [dedupLoop, henv, hsk]
          exact ih _ _ (slotInv_new h henv hsk) hlast
    case pos =>
      have hfil : keyedFilter c k (kv :: rest) = kv :: keyedFilter c k rest := by
        simp [keyedFilter, List.filter_cons, hkvk]
      rw [hfil] at hlast
      cases hrf : keyedFilter c k rest with
      | cons y ys =>
        rw [hrf, List.getLast?_cons_cons, ← hrf] at hlast
        cases hsk : saw k with
        | some i2 =>
          simp only [dedupLoop, hkvk, hsk]
          exact ih _ _ (slotInv_dup h hkvk hsk) hlast
        | none =>
          simp only [dedupLoop, hkvk, hsk]
          exact ih _ _ (slotInv_new h hkvk hsk) hlast
      | nil =>
        rw [hrf] at hlast
        have hwkv : w = kv := by
          rw [List.getLast?_singleton] at hlast
          cases hlast; rfl
        subst hwkv
        have hnone : ∀ kv2 ∈ rest, envKey c kv2 ≠ some k := by
          intro kv2 hm he
          have hmem := List.filter_eq_nil_iff.mp hrf kv2 hm
          simp [he] at hmem
        cases hsk : saw k with
        | some i2 =>
          simp only [dedupLoop, hkvk, hsk]
          apply dedupLoop_stable _ _ _ i2 (slotInv_dup h hkvk hsk) hsk ?_ hnone
          obtain ⟨hlt, _⟩ := h.1 k i2 hsk
          rw [List.getElem?_set_self hlt]
        | none =>
          simp only [dedupLoop, hkvk, hsk]
          apply dedupLoop_stable _ _ _ out.length (slotInv_new h hkvk hsk) ?_ ?_ hnone
          · simp
          · exact List.getElem?_concat_length out _

/-- Two entries have disjoint dedup keys (or at least one passes through). -/
def KeyDisjoint (c : Bool) (a b : String) : Prop :=
  ∀ k, envKey c a = some k → envKey c b ≠ some k

/-- On an input whose well-formed keys are pairwise distinct and all unseen,
the loop appends the input unchanged. -/
theorem dedupLoop_id {c : Bool} :
    ∀ (rest out : List String) (saw : String → Option Nat),
    (∀ kv ∈ rest, ∀ k, envKey c kv = some k → saw k = none) →
    List.Pairwise (KeyDisjoint c) rest →
    dedupLoop c rest out saw = out ++ rest := by
  intro rest
  induction rest with
  | nil => intro out saw _ _; simp [dedupLoop]
  | cons kv rest ih =>
    intro out saw hfresh hpw
    rw [List.pairwise_cons] at hpw
    obtain ⟨hhead, htail⟩ := hpw
    cases henv : envKey c kv with
    | none =>
      simp only [dedupLoop, henv]
      rw [ih (out ++ [kv]) saw (fun kv2 hm => hfresh kv2 (by simp [hm])) htail]
      simp
    | some k =>
      have hsk : saw k = none := hfresh kv (by simp) k henv
      simp only [dedupLoop, henv, hsk]
      rw [ih (out ++ [kv]) _ ?_ htail]
      · simp
      · intro kv2 hm k2 he2
        have hk2 : ¬ k2 = k := by
          intro heq
          subst heq
          exact hhead kv2 hm k2 henv he2
        simp only [if_neg hk2]
        exact hfresh kv2 (by simp [hm]) k2 he2

theorem dedupEnv_eq_self_of_pairwise {c : Bool} {l : List String}
    (h : List.Pairwise (KeyDisjoint c) l) : dedupEnv c l = l := by
  unfold dedupEnv
  rw [dedupLoop_id l [] _ (fun kv hm k he => rfl) h]
  simp

theorem dedupEnv_pairwise (c : Bool) (env : List String) :
    List.Pairwise (KeyDisjoint c) (dedupEnv c env) := by
  obtain ⟨saw2, hinv⟩ := dedupLoop_inv env [] (fun _ => none) (slotInv_empty c)
  rw [List.pairwise_iff_getElem]
  intro i j hi hj hij k hik hjk
  have hik2 : envKey c ((dedupEnv c env).get ⟨i, hi⟩) = some k := by
    simpa [List.get_eq_getElem] using hik
  have hjk2 : envKey c ((dedupEnv c env).get ⟨j, hj⟩) = some k := by
    simpa [List.get_eq_getElem] using hjk
  have h1 := hinv.2 i k hi hik2
  have h2 := hinv.2 j k hj hjk2
  rw [h1] at h2
  cases h2
  omega

/-- envKey passes an entry through exactly when its first '=' is at index
less than 1 (absent, or the very first character). -/
theorem envKey_none_iff {c : Bool} {kv : String} : envKey c kv = none ↔ eqIdx kv < 1 := by
  unfold envKey
  split_ifs with h
  · simpa using h
  · simpa using h

theorem dedupLoop_passthrough {c : Bool} :
    ∀ (rest out : List String) (saw : String → Option Nat), SlotInv c out saw →
    (dedupLoop c rest out saw).filter (fun kv => decide (eqIdx kv < 1)) =
      out.filter (fun kv => decide (eqIdx kv < 1)) ++
        rest.filter (fun kv => decide (eqIdx kv < 1)) := by
  intro rest
  induction rest with
  | nil => intro out saw _; simp [dedupLoop]
  | cons kv rest ih =>
    intro out saw h
    cases henv : envKey c kv with
    | none =>
      have hp : decide (eqIdx kv < 1) = true := by
        simpa using envKey_none_iff.mp henv
      simp only [dedupLoop, henv]
      rw [ih _ _ (slotInv_pass h henv)]
      simp [List.filter_append, List.filter_cons, hp]
    | some k =>
      have hp : decide (eqIdx kv < 1) = false := by
        simp only [decide_eq_false_iff_not]
        intro hlt
        rw [envKey_none_iff.mpr hlt] at henv
        cases henv
      cases hsk : saw k with
      | some i =>
        simp only [dedupLoop, henv, hsk]
        rw [ih _ _ (slotInv_dup h henv hsk)]
        have hset : (out.set i kv).filter (fun kv => decide (eqIdx kv < 1)) =
            out.filter (fun kv => decide (eqIdx kv < 1)) := by
          refine filter_set_congr out i kv ?_ hp
          intro hlt
          obtain ⟨hlt2, hkey⟩ := h.1 k i hsk
          simp only [decide_eq_false_iff_not]
          intro hlt1
          rw [envKey_none_iff.mpr hlt1] at hkey
          cases hkey
        rw [hset]
        simp [List.filter_cons, hp]
      | none =>
        simp only [dedupLoop, henv, hsk]
        rw [ih _ _ (slotInv_new h henv hsk)]
        simp [List.filter_append, List.filter_cons, hp]

/-- Claim C4: dedupEnv (a) leaves no two well-formed entries sharing a key
under the chosen comparison rule, (b) when several input entries share a key
the last such entry is the one present in the output (it overwrote the
earlier slot), and (c) the keys of the output are the keys of the input in
order of first occurrence. -/
theorem dedupEnv_spec : ∀ (c : Bool) (env : List String),
    (∀ (i j : Nat) (hi : i < (dedupEnv c env).length) (hj : j < (dedupEnv c env).length)
      (k : String),
      envKey c ((dedupEnv c env).get ⟨i, hi⟩) = some k →
      envKey c ((dedupEnv c env).get ⟨j, hj⟩) = some k → i = j) ∧
    (∀ (k w : String), (keyedFilter c k env).getLast? = some w → w ∈ dedupEnv c env) ∧
    keysOf c (dedupEnv c env) = firstNew (fun _ => false) (keysOf c env) := by
  intro c env
  refine ⟨?_, ?_, ?_⟩
  · obtain ⟨saw2, hinv⟩ := dedupLoop_inv env [] (fun _ => none) (slotInv_empty c)
    intro i j hi hj k hik hjk
    have h1 := hinv.2 i k hi hik
    have h2 := hinv.2 j k hj hjk
    rw [h1] at h2
    cases h2
    rfl
  · intro k w hlast
    exact dedupLoop_last env [] _ (slotInv_empty c) hlast
  · have hkeys := dedupLoop_keys env [] (fun _ => none) (slotInv_empty c)
    have hfun : (fun k => ((fun _ => (none : Option Nat)) k).isSome) = (fun _ : String => false) := by
      funext x; simp
    rw [hfun] at hkeys
    simpa [keysOf] using hkeys

/-- Claim C4 witness: on env [A=1, B=2, A=3] the later value A=3 wins and is
present in the de-duplicated output. -/
theorem dedupEnv_spec_witness : "A=3" ∈ dedupEnv false ["A=1", "B=2", "A=3"] :=
  (dedupEnv_spec false ["A=1", "B=2", "A=3"]).2.1 "A" "A=3" (by decide)

/-- Claim C5: with case-insensitive comparison, entries keyed Path and PATH
collapse to the single later entry; with case-sensitive comparison both are
retained. -/
theorem dedupEnv_path_case :
    dedupEnv true ["Path=a", "PATH=b"] = ["PATH=b"] ∧
    dedupEnv false ["Path=a", "PATH=b"] = ["Path=a", "PATH=b"] := by
  constructor <;> decide

/-- Claim C6: dedupEnv is idempotent: de-duplicating an already
de-duplicated environment changes nothing. -/
theorem dedupEnv_idempotent : ∀ (c : Bool) (env : List String),
    dedupEnv c (dedupEnv c env) = dedupEnv c env :=
  fun c env => dedupEnv_eq_self_of_pairwise (dedupEnv_pairwise c env)

/-- Claim C10: entries whose first '=' is at index less than 1 (no '=' at
all, or an empty key as in Windows "=C:=D:" entries) pass through dedupEnv
verbatim, keeping their relative order and multiplicity; in particular an
empty-key entry has eqIdx 0 and duplicates of it are all retained. -/
theorem dedupEnv_passthrough :
    (∀ (c : Bool) (env : List String),
      (dedupEnv c env).filter (fun kv => decide (eqIdx kv < 1)) =
        env.filter (fun kv => decide (eqIdx kv < 1))) ∧
    eqIdx "=C:=D:" = 0 ∧
    dedupEnv true ["=C:=D:", "x", "=C:=D:"] = ["=C:=D:", "x", "=C:=D:"] := by
  refine ⟨?_, by decide, by decide⟩
  intro c env
  have h := dedupLoop_passthrough env [] (fun _ => none) (slotInv_empty c)
  simpa using h

/-! ### Fetch / verify / install pipeline (main.go, fetch 119-143,
fetchify 144-177, installVer 178-209)

The effectful code is embedded over an explicit world of primitive-effect
outcomes.  Each function returns its Go result together with the trace of
observable events in program order.  A local file is a pair of contents and
a read cursor; `os.Create` + `io.Copy` + `Seek(0,0)` leave the fetched file
holding the response body with the cursor at the start.  Go's `http.Get`
fails only on transport errors: it returns normally for any HTTP status, and
fetch never inspects `resp.StatusCode`, which is why the response status is
part of the world but never examined by `fetch`. -/

inductive FetchErr
  | createFailed
  | netFailed
  | copyFailed
  | seekFailed
deriving DecidableEq

/-- Outcomes of the primitive effects inside one call to fetch. -/
structure FetchWorld where
  createErr : Bool
  netErr : Bool
  status : Nat
  body : List Nat
  copyErr : Bool
  seekErr : Bool
deriving DecidableEq

/-- A local file handle: contents on disk and the current read cursor. -/
structure GoFile where
  contents : List Nat
  offset : Nat
deriving DecidableEq

/-- fetch (main.go 119-143): create the local file, GET the URL, stream the
body to disk, rewind.  Each failing primitive aborts with its error. -/
def fetch (w : FetchWorld) : Except FetchErr GoFile :=
  if w.createErr then .error .createFailed
  else if w.netErr then .error .netFailed
  else if w.copyErr then .error .copyFailed
  else if w.seekErr then .error .seekFailed
  else .ok ⟨w.body, 0⟩

/-- Reading a handle to its end, as detached-signature verification does to
both of its inputs. -/
def readAll (f : GoFile) : GoFile := ⟨f.contents, f.contents.length⟩

inductive GErr
  | keyParse
  | fetchFailed (e : FetchErr)
  | sigVerify
  | seekFailed
  | untarFailed
  | mkdirFailed
  | verifyWrapped (e : GErr)
  | bootstrapFailed
  | buildFailed
deriving DecidableEq

/-- Observable events of the install pipeline, in program order. -/
inductive Ev
  | keyParsed (ok : Bool)
  | fetched (isSig : Bool) (ok : Bool)
  | sigChecked (ok : Bool)
  | seeked (ok : Bool)
  | extracted (archiveOff sigOff : Nat) (ok : Bool)
  | madeVersionDir (ok : Bool)
  | bootstrapQueried (ok : Bool)
  | buildRan (ok : Bool)
deriving DecidableEq

/-- Outcomes of the primitive effects inside one call to fetchify. -/
structure FWorld where
  keyParseErr : Bool
  wArchive : FetchWorld
  wSig : FetchWorld
  sigMatches : Bool
  seek2Err : Bool
  untarErr : Bool
deriving DecidableEq

/-- fetchify (main.go 144-177): parse the embedded key, fetch the archive and
its detached signature, verify, rewind the archive, extract.  The
verification consumes both readers; afterwards only the archive handle is
seeked back to 0 (line 171) before Untar reads it; the signature handle is
not touched again. -/
def fetchify (w : FWorld) : Except GErr Unit × List Ev :=
  if w.keyParseErr then (.error .keyParse, [.keyParsed false])
  else
    match fetch w.wArchive with
    | .error e => (.error (.fetchFailed e), [.keyParsed true, .fetched false false])
    | .ok tbz =>
      match fetch w.wSig with
      | .error e =>
        (.error (.fetchFailed e), [.keyParsed true, .fetched false true, .fetched true false])
      | .ok sig =>
        let evs := [Ev.keyParsed true, .fetched false true, .fetched true true]
        let tbz1 := readAll tbz
        let sig1 := readAll sig
        if w.sigMatches = false then (.error .sigVerify, evs ++ [.sigChecked false])
        else if w.seek2Err then (.error .seekFailed, evs ++ [.sigChecked true, .seeked false])
        else
          let tbz2 : GoFile := ⟨tbz1.contents, 0⟩
          if w.untarErr then
            (.error .untarFailed,
              evs ++ [.sigChecked true, .seeked true, .extracted tbz2.offset sig1.offset false])
          else
            (.ok (),
              evs ++ [.sigChecked true, .seeked true, .extracted tbz2.offset sig1.offset true])

/-- Outcomes of the primitive effects inside one call to installVer. -/
structure IWorld where
  goDirExists : Bool
  mkdirErr : Bool
  fw : FWorld
  bootstrapErr : Bool
  buildErr : Bool
deriving DecidableEq

/-- The build tail of installVer (main.go 193-208): on windows first query an
existing toolchain for GOROOT_BOOTSTRAP, then run the make script. -/
def buildStep (goos : String) (w : IWorld) (evs : List Ev) : Except GErr Unit × List Ev :=
  if goos = "windows" then
    if w.bootstrapErr then (.error .bootstrapFailed, evs ++ [.bootstrapQueried false])
    else if w.buildErr then (.error .buildFailed, evs ++ [.bootstrapQueried true, .buildRan false])
    else (.ok (), evs ++ [.bootstrapQueried true, .buildRan true])
  else
    if w.buildErr then (.error .buildFailed, evs ++ [.buildRan false])
    else (.ok (), evs ++ [.buildRan true])

/-- installVer (main.go 178-209): when root/version/go does not already
exist, create the version directory, fetch-and-verify; then (in every case
that reaches it) run the build script. -/
def installVer (goos : String) (w : IWorld) : Except GErr Unit × List Ev :=
  if w.goDirExists then buildStep goos w []
  else if w.mkdirErr then (.error .mkdirFailed, [.madeVersionDir false])
  else
    match fetchify w.fw with
    | (.error e, evs) => (.error (.verifyWrapped e), .madeVersionDir true :: evs)
    | (.ok _, evs) => buildStep goos w (.madeVersionDir true :: evs)

/-- Whether an Except result is a success. -/
def exceptOk {α β : Type} : Except α β → Bool
  | .ok _ => true
  | .error _ => false

theorem fetch_ok_val {w : FetchWorld} {f : GoFile} (h : fetch w = .ok f) :
    f = ⟨w.body, 0⟩ := by
  unfold fetch at h
  split_ifs at h
  cases h
  rfl

/-- Exhaustive characterization of one fetchify run: exactly one of seven
outcomes, each with its literal result and trace. -/
theorem fetchify_cases (w : FWorld) :
    (w.keyParseErr = true ∧ fetchify w = (.error .keyParse, [.keyParsed false])) ∨
    (∃ e, fetch w.wArchive = .error e ∧
      fetchify w = (.error (.fetchFailed e), [.keyParsed true, .fetched false false])) ∨
    (∃ e, fetch w.wSig = .error e ∧
      fetchify w = (.error (.fetchFailed e),
        [.keyParsed true, .fetched false true, .fetched true false])) ∨
    (w.sigMatches = false ∧
      fetchify w = (.error .sigVerify,
        [.keyParsed true, .fetched false true, .fetched true true, .sigChecked false])) ∨
    (w.seek2Err = true ∧
      fetchify w = (.error .seekFailed,
        [.keyParsed true, .fetched false true, .fetched true true,
         .sigChecked true, .seeked false])) ∨
    (w.untarErr = true ∧
      fetchify w = (.error .untarFailed,
        [.keyParsed true, .fetched false true, .fetched true true, .sigChecked true,
         .seeked true, .extracted 0 w.wSig.body.length false])) ∨
    (w.untarErr = false ∧
      fetchify w = (.ok (),
        [.keyParsed true, .fetched false true, .fetched true true, .sigChecked true,
         .seeked true, .extracted 0 w.wSig.body.length true])) := by
  by_cases h1 : w.keyParseErr = true
  · exact Or.inl ⟨h1, by simp [fetchify, h1]⟩
  cases hfa : fetch w.wArchive with
  | error e =>
    exact Or.inr (Or.inl ⟨e, rfl, by simp [fetchify, h1, hfa]⟩)
  | ok tbz =>
    cases hfs : fetch w.wSig with
    | error e =>
      exact Or.inr (Or.inr (Or.inl ⟨e, rfl, by simp [fetchify, h1, hfa, hfs]⟩))
    | ok sig =>
      have hsig : sig = ⟨w.wSig.body, 0⟩ := fetch_ok_val hfs
      by_cases h2 : w.sigMatches = false
      · refine Or.inr (Or.inr (Or.inr (Or.inl ⟨h2, ?_⟩)))
        simp [fetchify, h1, hfa, hfs, h2]
      by_cases h3 : w.seek2Err = true
      · refine Or.inr (Or.inr (Or.inr (Or.inr (Or.inl ⟨h3, ?_⟩))))
        simp [fetchify, h1, hfa, hfs, h2, h3]
      by_cases h4 : w.untarErr = true
      · refine Or.inr (Or.inr (Or.inr (Or.inr (Or.inr (Or.inl ⟨h4, ?_⟩)))))
        simp [fetchify, h1, hfa, hfs, h2, h3, h4, readAll, hsig]
      · refine Or.inr (Or.inr (Or.inr (Or.inr (Or.inr (Or.inr ⟨by simpa using h4, ?_⟩)))))
        simp [fetchify, h1, hfa, hfs, h2, h3, h4, readAll, hsig]

/-- Within fetchify, a failed key parse or a failed signature check yields an
error and a trace without any extraction event. -/
theorem fetchify_verify_gate (w : FWorld)
    (h : Ev.keyParsed false ∈ (fetchify w).2 ∨ Ev.sigChecked false ∈ (fetchify w).2) :
    exceptOk (fetchify w).1 = false ∧
    ∀ a b ok, Ev.extracted a b ok ∉ (fetchify w).2 := by
  rcases fetchify_cases w with ⟨h1, he⟩ | ⟨e, h1, he⟩ | ⟨e, h1, he⟩ | ⟨h1, he⟩ |
    ⟨h1, he⟩ | ⟨h1, he⟩ | ⟨h1, he⟩ <;>
    rw [he] at h ⊢ <;> simp [exceptOk] at h ⊢

/-- When fetchify succeeds its trace is exactly the full success trace. -/
theorem fetchify_ok_trace (w : FWorld) (h : exceptOk (fetchify w).1 = true) :
    (fetchify w).2 =
      [.keyParsed true, .fetched false true, .fetched true true, .sigChecked true,
       .seeked true, .extracted 0 w.wSig.body.length true] := by
  rcases fetchify_cases w with ⟨h1, he⟩ | ⟨e, h1, he⟩ | ⟨e, h1, he⟩ | ⟨h1, he⟩ |
    ⟨h1, he⟩ | ⟨h1, he⟩ | ⟨h1, he⟩ <;>
    rw [he] at h ⊢ <;> simp [exceptOk] at h ⊢

/-- Events that the build tail can emit. -/
def isBuildEv : Ev → Bool
  | .bootstrapQueried _ => true
  | .buildRan _ => true
  | _ => false

/-- The build tail only ever appends bootstrap-query and build events. -/
theorem buildStep_evs (goos : String) (w : IWorld) (evs : List Ev) :
    ∀ ev ∈ (buildStep goos w evs).2, ev ∈ evs ∨ isBuildEv ev = true := by
  intro ev h
  unfold buildStep at h
  split_ifs at h <;> simp at h <;>
    rcases h with h | h <;>
      first
        | exact Or.inl h
        | (right; rcases h with h | h <;> subst h <;> rfl)
        | (right; subst h; rfl)

/-- Claim C1: whenever signature verification of a fetched archive fails
(key parse failure or detached-signature check failure), installVer returns
an error and no extraction is ever performed, so no unpacked tree is
produced by that install. -/
theorem installVer_sig_gate : ∀ (goos : String) (w : IWorld),
    (Ev.keyParsed false ∈ (installVer goos w).2 ∨
      Ev.sigChecked false ∈ (installVer goos w).2) →
    exceptOk (installVer goos w).1 = false ∧
    ∀ a b ok, Ev.extracted a b ok ∉ (installVer goos w).2 := by
  intro goos w h
  unfold installVer at h ⊢
  by_cases h1 : w.goDirExists = true
  · rw [if_pos h1] at h ⊢
    exfalso
    rcases h with h | h <;>
      rcases buildStep_evs goos w [] _ h with hm | hm <;> simp [isBuildEv] at hm
  · rw [if_neg h1] at h ⊢
    by_cases h2 : w.mkdirErr = true
    · rw [if_pos h2] at h ⊢
      simp at h
    · rw [if_neg h2] at h ⊢
      obtain ⟨res, evs, hf⟩ : ∃ res evs, fetchify w.fw = (res, evs) :=
        ⟨(fetchify w.fw).1, (fetchify w.fw).2, rfl⟩
      rw [hf] at h ⊢
      cases res with
      | error e =>
        have hfw : Ev.keyParsed false ∈ (fetchify w.fw).2 ∨
            Ev.sigChecked false ∈ (fetchify w.fw).2 := by
          rw [hf]
          rcases h with h | h
          · left
            have h2m : Ev.keyParsed false ∈ Ev.madeVersionDir true :: evs := h
            rcases List.mem_cons.mp h2m with hx | hx
            · cases hx
            · exact hx
          · right
            have h2m : Ev.sigChecked false ∈ Ev.madeVersionDir true :: evs := h
            rcases List.mem_cons.mp h2m with hx | hx
            · cases hx
            · exact hx
        have hg := fetchify_verify_gate w.fw hfw
        refine ⟨rfl, ?_⟩
        intro a b ok hm
        have hm2 : Ev.extracted a b ok ∈ Ev.madeVersionDir true :: evs := hm
        rcases List.mem_cons.mp hm2 with hx | hx
        · cases hx
        · have hg2 := hg.2 a b ok
          rw [hf] at hg2
          exact hg2 hx
      | ok u =>
        exfalso
        have hok : exceptOk (fetchify w.fw).1 = true := by rw [hf]; rfl
        have htr := fetchify_ok_trace w.fw hok
        rw [hf] at htr
        rcases h with h | h
        · rcases buildStep_evs goos w (Ev.madeVersionDir true :: evs) _ h with hm | hm
          · rcases List.mem_cons.mp hm with hx | hx
            · cases hx
            · rw [show evs = _ from htr] at hx
              simp at hx
          · simp [isBuildEv] at hm
        · rcases buildStep_evs goos w (Ev.madeVersionDir true :: evs) _ h with hm | hm
          · rcases List.mem_cons.mp hm with hx | hx
            · cases hx
            · rw [show evs = _ from htr] at hx
              simp at hx
          · simp [isBuildEv] at hm


/-- A fetch world in which every primitive succeeds (status 200, body one
byte). -/
def fwOk : FetchWorld := ⟨false, false, 200, [7], false, false⟩

/-- A fetchify world whose only failure is the signature check. -/
def fwSigFail : FWorld := ⟨false, fwOk, fwOk, false, false, false⟩

/-- An install world for a fresh version whose signature check fails. -/
def iwSigFail : IWorld := ⟨false, false, fwSigFail, false, false⟩

/-- Claim C1 witness: on a concrete install whose signature check fails, the
result is an error and no extraction event appears in the trace. -/
theorem installVer_sig_gate_witness :
    exceptOk (installVer "linux" iwSigFail).1 = false ∧
    Ev.extracted 0 1 true ∉ (installVer "linux" iwSigFail).2 :=
  ⟨(installVer_sig_gate "linux" iwSigFail (Or.inr (by decide))).1,
   (installVer_sig_gate "linux" iwSigFail (Or.inr (by decide))).2 0 1 true⟩

/-- A fetchify world where everything succeeds. -/
def fwAllOk : FWorld := ⟨false, fwOk, fwOk, true, false, false⟩

/-- Claim C2 counterexample: with root/version/go already present but the
build script failing, installVer returns an error and its trace shows the
build was attempted — it is not an immediate successful no-op. -/
theorem installVer_existing_dir_counterexample :
    (installVer "linux" ⟨true, false, fwAllOk, false, true⟩).1 = .error .buildFailed ∧
    Ev.buildRan false ∈ (installVer "linux" ⟨true, false, fwAllOk, false, true⟩).2 :=
  ⟨rfl, by decide⟩

/-- Claim C2 amended: if the unpacked toolchain directory already exists,
installVer performs no key parse, no fetch, no signature check, no
extraction and no version-directory creation, but it does not return
immediately: it still proceeds to the build step (build script, preceded on
windows by the bootstrap-toolchain query) and succeeds iff that step
succeeds. -/
theorem installVer_existing_dir_spec : ∀ (goos : String) (w : IWorld),
    w.goDirExists = true →
    ((∀ ok, Ev.keyParsed ok ∉ (installVer goos w).2) ∧
     (∀ s ok, Ev.fetched s ok ∉ (installVer goos w).2) ∧
     (∀ ok, Ev.sigChecked ok ∉ (installVer goos w).2) ∧
     (∀ a b ok, Ev.extracted a b ok ∉ (installVer goos w).2) ∧
     (∀ ok, Ev.madeVersionDir ok ∉ (installVer goos w).2)) ∧
    ((installVer goos w).1 = .ok () ↔
      ((goos = "windows" → w.bootstrapErr = false) ∧ w.buildErr = false)) ∧
    (∃ ok, Ev.buildRan ok ∈ (installVer goos w).2 ∨
      Ev.bootstrapQueried ok ∈ (installVer goos w).2) := by
  intro goos w hdir
  unfold installVer
  rw [if_pos hdir]
  unfold buildStep
  split_ifs with hwin hboot hbuild hbuild <;>
    refine ⟨⟨?_, ?_, ?_, ?_, ?_⟩, ?_, ?_⟩ <;>
    simp_all

/-- Claim C2 amended witness: a concrete successful re-install on an
existing directory: no fetch event, and the result is success because the
build succeeds. -/
theorem installVer_existing_dir_spec_witness :
    Ev.fetched false true ∉ (installVer "linux" ⟨true, false, fwAllOk, false, false⟩).2 ∧
    (installVer "linux" ⟨true, false, fwAllOk, false, false⟩).1 = .ok () :=
  ⟨(installVer_existing_dir_spec "linux" ⟨true, false, fwAllOk, false, false⟩ rfl).1.2.1 false true,
   (installVer_existing_dir_spec "linux" ⟨true, false, fwAllOk, false, false⟩ rfl).2.1.mpr
     ⟨fun hw => absurd hw (by decide), rfl⟩⟩

/-- A fully successful fetchify world whose signature file holds 3 bytes. -/
def fwSig3 : FWorld := ⟨false, fwOk, ⟨false, false, 200, [9, 9, 9], false, false⟩, true, false, false⟩

/-- Claim C3 counterexample: on a successful run whose signature file has
three bytes, the extraction event records the archive cursor at 0 but the
signature cursor at 3: the signature handle is never repositioned to the
start. -/
theorem fetchify_sig_cursor_counterexample :
    (fetchify fwSig3).1 = .ok () ∧
    Ev.extracted 0 3 true ∈ (fetchify fwSig3).2 ∧ (3 : Nat) ≠ 0 :=
  ⟨rfl, by decide, by decide⟩

/-- Claim C3 amended: whenever fetchify reaches extraction, the archive
cursor has been rewound to offset 0, while the signature file cursor is left
at end of file (where verification finished); extraction reads only the
archive. -/
theorem fetchify_extract_offsets : ∀ (w : FWorld) (a b : Nat) (ok : Bool),
    Ev.extracted a b ok ∈ (fetchify w).2 → a = 0 ∧ b = w.wSig.body.length := by
  intro w a b ok h
  rcases fetchify_cases w with ⟨h1, he⟩ | ⟨e, h1, he⟩ | ⟨e, h1, he⟩ | ⟨h1, he⟩ |
    ⟨h1, he⟩ | ⟨h1, he⟩ | ⟨h1, he⟩ <;>
    rw [he] at h <;> simp at h <;> exact ⟨h.1, h.2.1⟩

/-- Claim C3 amended witness: concrete offsets at the extraction step. -/
theorem fetchify_extract_offsets_witness : (0 : Nat) = 0 ∧ (3 : Nat) = 3 :=
  fetchify_extract_offsets fwSig3 0 3 true (by decide)

/-- Claim C8 counterexample: with a working transport and local file but a
404 response, fetch succeeds and stores the response body: a non-2xx HTTP
status is not a failure condition of this code (the status is never
inspected). -/
theorem fetch_non2xx_counterexample :
    fetch ⟨false, false, 404, [1, 2], false, false⟩ = .ok ⟨[1, 2], 0⟩ ∧
    ¬ (200 ≤ 404 ∧ 404 < 300) :=
  ⟨rfl, by decide⟩

/-- Claim C8 amended: fetch fails exactly on local file-creation failure,
transport (network) error, body-copy failure, or rewind failure; the HTTP
status code is never examined, and on success the handle holds the full
response body with the cursor rewound to the start. -/
theorem fetch_spec : ∀ w : FetchWorld,
    (exceptOk (fetch w) = true ↔
      (w.createErr = false ∧ w.netErr = false ∧ w.copyErr = false ∧ w.seekErr = false)) ∧
    (∀ f, fetch w = .ok f → f = ⟨w.body, 0⟩) ∧
    (∀ s, fetch ⟨w.createErr, w.netErr, s, w.body, w.copyErr, w.seekErr⟩ = fetch w) := by
  intro w
  refine ⟨?_, fun f h => fetch_ok_val h, fun s => ?_⟩
  · unfold fetch
    split_ifs <;> simp_all [exceptOk]
  · unfold fetch
    rfl

/-- Claim C8 amended witness: a concrete all-success fetch, and its returned
handle. -/
theorem fetch_spec_witness :
    exceptOk (fetch ⟨false, false, 200, [5], false, false⟩) = true ∧
    (⟨[5], 0⟩ : GoFile) = ⟨[5], 0⟩ :=
  ⟨(fetch_spec ⟨false, false, 200, [5], false, false⟩).1.mpr ⟨rfl, rfl, rfl, rfl⟩,
   (fetch_spec ⟨false, false, 200, [5], false, false⟩).2.1 ⟨[5], 0⟩ rfl⟩

/-! ### Home and root resolution, and main's startup (main.go, main 48-117,
goroot 229-235, homedir 236-261)

homedir reads only the process environment (and, on the default platform
family, the user database); it is embedded over an explicit environment
record.  Go's `os.Getenv` returns "" for unset variables.  `user.Current`
is modelled as an optional user record (`none` when it returns an error). -/

structure UserInfo where
  homeDir : String
deriving DecidableEq

/-- The process environment visible to homedir. -/
structure OSEnv where
  getenv : String → String
  userCurrent : Option UserInfo

inductive HomeErr
  | noHome
deriving DecidableEq

/-- The user-database fallback of homedir's default branch:
`user.Current()` succeeding with a non-empty HomeDir. -/
def userHome : Option UserInfo → Except HomeErr String
  | some u => if u.homeDir ≠ "" then .ok u.homeDir else .error .noHome
  | none => .error .noHome

/-- homedir (main.go 236-261): plan9 uses $home, windows uses %USERPROFILE%,
every other platform uses $HOME and then falls back to the user database;
with no usable signal it returns an error, never a default path. -/
def homedir (goos : String) (e : OSEnv) : Except HomeErr String :=
  if goos = "plan9" then
    if e.getenv "home" ≠ "" then .ok (e.getenv "home") else .error .noHome
  else if goos = "windows" then
    if e.getenv "USERPROFILE" ≠ "" then .ok (e.getenv "USERPROFILE") else .error .noHome
  else
    if e.getenv "HOME" ≠ "" then .ok (e.getenv "HOME")
    else userHome e.userCurrent

/-- The dedicated home variable of each platform family. -/
def homeVar (goos : String) : String :=
  if goos = "plan9" then "home" else if goos = "windows" then "USERPROFILE" else "HOME"

/-- goroot (main.go 229-235): home/sdk/version, or the wrapped homedir
error.  filepath.Join is modelled as separator concatenation for the default
platform family. -/
def goroot (version goos : String) (e : OSEnv) : Except HomeErr String :=
  match homedir goos e with
  | .error err => .error err
  | .ok home => .ok (home ++ "/sdk/" ++ version)

/-- Absoluteness of a path on the default platform family: a leading '/'. -/
def isAbsPath (s : String) : Bool :=
  match s.toList with
  | [] => false
  | c :: _ => c == '/'

/-- An environment whose HOME holds a relative path. -/
def envRelHome : OSEnv := ⟨fun v => if v = "HOME" then "foo" else "", none⟩

/-- Claim C7 counterexample: when $HOME holds the relative path "foo",
homedir returns it verbatim: the resolved value is not an absolute directory
path. -/
theorem homedir_relative_counterexample :
    homedir "linux" envRelHome = .ok "foo" ∧ isAbsPath "foo" = false :=
  ⟨rfl, by decide⟩

/-- Claim C7 amended: homedir either returns, verbatim and non-empty, the
platform's dedicated home variable (falling back to the user-identity lookup
only on the default platform family) or fails with a home-resolution error;
when no usable signal exists it errors rather than falling back to a
relative or current-directory default, and goroot propagates that error. -/
theorem homedir_spec : ∀ (goos : String) (e : OSEnv),
    (∀ d, homedir goos e = .ok d →
      (d = e.getenv (homeVar goos) ∧ d ≠ "") ∨
      (goos ≠ "plan9" ∧ goos ≠ "windows" ∧ e.getenv "HOME" = "" ∧
        ∃ u, e.userCurrent = some u ∧ d = u.homeDir ∧ d ≠ "")) ∧
    (e.getenv (homeVar goos) ≠ "" → homedir goos e = .ok (e.getenv (homeVar goos))) ∧
    ((e.getenv (homeVar goos) = "" ∧ ∀ u, e.userCurrent = some u → u.homeDir = "") →
      homedir goos e = .error .noHome) ∧
    (∀ version err, homedir goos e = .error err → goroot version goos e = .error err) := by
  intro goos e
  refine ⟨?_, ?_, ?_, ?_⟩
  · intro d hd
    by_cases h1 : goos = "plan9"
    · rw [homedir, if_pos h1] at hd
      rw [homeVar, if_pos h1]
      by_cases h2 : e.getenv "home" ≠ ""
      · rw [if_pos h2] at hd
        cases hd
        exact Or.inl ⟨rfl, h2⟩
      · rw [if_neg h2] at hd
        cases hd
    · by_cases h2 : goos = "windows"
      · rw [homedir, if_neg h1, if_pos h2] at hd
        rw [homeVar, if_neg h1, if_pos h2]
        by_cases h3 : e.getenv "USERPROFILE" ≠ ""
        · rw [if_pos h3] at hd
          cases hd
          exact Or.inl ⟨rfl, h3⟩
        · rw [if_neg h3] at hd
          cases hd
      · rw [homedir, if_neg h1, if_neg h2] at hd
        rw [homeVar, if_neg h1, if_neg h2]
        by_cases h3 : e.getenv "HOME" ≠ ""
        · rw [if_pos h3] at hd
          cases hd
          exact Or.inl ⟨rfl, h3⟩
        · rw [if_neg h3] at hd
          cases hu : e.userCurrent with
          | none => rw [hu, userHome] at hd; cases hd
          | some u =>
            rw [hu, userHome] at hd
            by_cases h4 : u.homeDir ≠ ""
            · rw [if_pos h4] at hd
              cases hd
              exact Or.inr ⟨h1, h2, by simpa using h3, u, rfl, rfl, h4⟩
            · rw [if_neg h4] at hd
              cases hd
  · intro hne
    by_cases h1 : goos = "plan9"
    · rw [homeVar, if_pos h1] at hne ⊢
      rw [homedir, if_pos h1, if_pos hne]
    · by_cases h2 : goos = "windows"
      · rw [homeVar, if_neg h1, if_pos h2] at hne ⊢
        rw [homedir, if_neg h1, if_pos h2, if_pos hne]
      · rw [homeVar, if_neg h1, if_neg h2] at hne ⊢
        rw [homedir, if_neg h1, if_neg h2, if_pos hne]
  · rintro ⟨hempty, huser⟩
    by_cases h1 : goos = "plan9"
    · rw [homeVar, if_pos h1] at hempty
      rw [homedir, if_pos h1, if_neg (by simp [hempty])]
    · by_cases h2 : goos = "windows"
      · rw [homeVar, if_neg h1, if_pos h2] at hempty
        rw [homedir, if_neg h1, if_pos h2, if_neg (by simp [hempty])]
      · rw [homeVar, if_neg h1, if_neg h2] at hempty
        rw [homedir, if_neg h1, if_neg h2, if_neg (by simp [hempty])]
        cases hu : e.userCurrent with
        | none => rw [userHome]
        | some u =>
          rw [userHome, if_neg (by simp [huser u hu])]
  · intro version err hd
    rw [goroot, hd]

/-- An environment with an absolute HOME. -/
def envHomeU : OSEnv := ⟨fun v => if v = "HOME" then "/home/u" else "", none⟩

/-- Claim C7 amended witness: with HOME set, homedir returns it. -/
theorem homedir_spec_witness : homedir "linux" envHomeU = .ok "/home/u" :=
  (homedir_spec "linux" envHomeU).2.1 (by decide)

/-! ### main's startup: root creation (main.go 48-58)

main resolves goroot("gover"), fatally exits on error, then calls
os.MkdirAll(root, 0755) and fatally exits on failure, before dispatching to
any version-specific operation (download or launch). -/

/-- The permission bits passed to os.MkdirAll for the root (main.go 56). -/
def goverRootPerm : Nat := 0o755

inductive MainEv
  | rootMade (perm : Nat) (ok : Bool)
  | fatalExit
  | versionOp
  | listed
deriving DecidableEq

inductive Cmd
  | download (version : String)
  | listCmd
  | run (version : String)
  | noArgs

/-- The world of one run of main's startup and dispatch. -/
structure MWorld where
  env : OSEnv
  goos : String
  mkdirOk : Bool
  cmd : Cmd

/-- The dispatch tail of main: download and launch are the version-specific
operations; list only reads the root; no arguments is a usage-fatal. -/
def dispatchEvs : Cmd → List MainEv
  | .download _ => [.versionOp]
  | .listCmd => [.listed]
  | .run _ => [.versionOp]
  | .noArgs => [.fatalExit]

/-- main's startup and dispatch skeleton (main.go 48-117): resolve the root,
create it with goverRootPerm, then dispatch. -/
def mainRun (w : MWorld) : List MainEv :=
  match goroot "gover" w.goos w.env with
  | .error _ => [.fatalExit]
  | .ok _ =>
    if w.mkdirOk = false then [.rootMade goverRootPerm false, .fatalExit]
    else .rootMade goverRootPerm true :: dispatchEvs w.cmd

/-- Claim C9 counterexample: the root is created with permission bits 0o755,
whose group/other bits are 0o55, not 0: the mode is not owner-only
equivalent (group and others get read and execute). -/
theorem root_perm_counterexample :
    mainRun ⟨envHomeU, "linux", true, .download "1.14.2"⟩ =
      [MainEv.rootMade goverRootPerm true, MainEv.versionOp] ∧
    goverRootPerm % 64 = 45 ∧ ¬ goverRootPerm % 64 = 0 :=
  ⟨rfl, by decide, by decide⟩

/-- Claim C9 amended: the install root is created, intermediate directories
included, with permission bits 0o755 (owner rwx, group and others rx — not
owner-only) before any version-specific operation, and a creation failure
terminates the process fatally with no version-specific operation run. -/
theorem mainRun_root_spec : ∀ w : MWorld,
    (MainEv.versionOp ∈ mainRun w →
      ∃ t, mainRun w = MainEv.rootMade goverRootPerm true :: t) ∧
    (∀ r, goroot "gover" w.goos w.env = .ok r → w.mkdirOk = false →
      mainRun w = [MainEv.rootMade goverRootPerm false, MainEv.fatalExit] ∧
      MainEv.versionOp ∉ mainRun w) := by
  intro w
  constructor
  · intro h
    cases hg : goroot "gover" w.goos w.env with
    | error err => simp [mainRun, hg] at h
    | ok r =>
      by_cases hmk : w.mkdirOk = false
      · simp [mainRun, hg, hmk] at h
      · refine ⟨dispatchEvs w.cmd, ?_⟩
        simp [mainRun, hg, hmk]
  · intro r hg hmk
    refine ⟨?_, ?_⟩
    · simp [mainRun, hg, hmk]
    · simp [mainRun, hg, hmk]

/-- Claim C9 amended witness: concrete failing creation is fatal, and no
version operation runs. -/
theorem mainRun_root_spec_witness :
    mainRun ⟨envHomeU, "linux", false, .download "1.14.2"⟩ =
      [MainEv.rootMade goverRootPerm false, MainEv.fatalExit] ∧
    MainEv.versionOp ∉ mainRun ⟨envHomeU, "linux", false, .download "1.14.2"⟩ :=
  (mainRun_root_spec ⟨envHomeU, "linux", false, .download "1.14.2"⟩).2
    "/home/u/sdk/gover" rfl rfl

end Gover
